import Mathlib

/-!
Verification of the chat ingestion and profanity-classification core of
a Twitch chat moderation desktop application (`main_gui.py`).

Messages and lexicon entries are modelled as `List Char` (Python `str` is a
sequence of code points, and `len`, slicing, `in`, `split` all act on code
points).  Python sets are modelled as lists, with the set character captured
at the level of membership and `dedup`.  The external `wordsegment` library
is not part of the repository; its `segment` function is an abstract
parameter `segFn : Option (List Char -> Option (List (List Char)))`:
`none` embeds `WORDSEGMENT_AVAILABLE = False`, `some f` with `f x = none`
embeds a `segment` call that raises, and `f x = some ws` a call returning
the token list `ws`.
-/

/-- Embedding of Python `str.lower` (main_gui.py lines 98, 140) restricted to
the ASCII range: `A`-`Z` fold to `a`-`z`, every other character is kept.
Non-ASCII cased characters fold to non-ASCII characters in Python as well,
and every cleaning filter that follows keeps only ASCII letters, Thai script
and whitespace, so the difference is invisible to the classifier. -/
def pyLower (c : Char) : Char :=
  if 65 ≤ c.toNat ∧ c.toNat ≤ 90 then Char.ofNat (c.toNat + 32) else c

/-- The Unicode whitespace class used by Python's `re` pattern `\s`,
`str.split()` and `str.strip()`. -/
def pyIsSpace (c : Char) : Bool :=
  decide (c.toNat = 32 ∨ (9 ≤ c.toNat ∧ c.toNat ≤ 13) ∨
    (28 ≤ c.toNat ∧ c.toNat ≤ 31) ∨ c.toNat = 133 ∨ c.toNat = 160 ∨
    c.toNat = 5760 ∨ (8192 ≤ c.toNat ∧ c.toNat ≤ 8202) ∨ c.toNat = 8232 ∨
    c.toNat = 8233 ∨ c.toNat = 8239 ∨ c.toNat = 8287 ∨ c.toNat = 12288)

/-- ASCII lowercase letter, the class `[a-z]`. -/
def isLowerB (c : Char) : Bool := decide (97 ≤ c.toNat ∧ c.toNat ≤ 122)

/-- ASCII letter, the regex class `[a-zA-Z]` (main_gui.py lines 98, 141). -/
def isAlphaB (c : Char) : Bool :=
  isLowerB c || decide (65 ≤ c.toNat ∧ c.toNat ≤ 90)

/-- Thai script character, the regex range `ก-๙` (U+0E01 to U+0E59,
main_gui.py line 141). -/
def isThaiB (c : Char) : Bool := decide (3585 ≤ c.toNat ∧ c.toNat ≤ 3673)

/-- Embedding of `.replace(' ', '')` (main_gui.py lines 105, 142): removes
space characters only, and no other whitespace. -/
def noSpaces (s : List Char) : List Char := s.filter (fun c => !(c == ' '))

/-- Embedding of `re.sub(r'[^a-zA-Z\s]', '', message.lower())`
(main_gui.py line 98): lowercase, then keep only ASCII letters and
whitespace. -/
def cleanEn (message : List Char) : List Char :=
  (message.map pyLower).filter (fun c => isAlphaB c || pyIsSpace c)

/-- Embedding of `re.sub(r'[^a-zA-Zก-๙\s]', '', message.lower())`
(main_gui.py lines 140-141): lowercase, then keep only ASCII letters, Thai
script and whitespace. -/
def cleanTh (message : List Char) : List Char :=
  (message.map pyLower).filter (fun c => isAlphaB c || isThaiB c || pyIsSpace c)

/-- Accumulator worker for `pySplitWs`; `cur` holds the characters of the
token being built, in reverse. -/
def pySplitWsAux (cur : List Char) : List Char → List (List Char)
  | [] => if cur.isEmpty then [] else [cur.reverse]
  | c :: cs =>
    if pyIsSpace c then
      if cur.isEmpty then pySplitWsAux [] cs
      else cur.reverse :: pySplitWsAux [] cs
    else pySplitWsAux (c :: cur) cs

/-- Embedding of Python `str.split()` with no argument (main_gui.py lines
110, 116, 119): split on runs of whitespace, discarding empty tokens. -/
def pySplitWs (s : List Char) : List (List Char) := pySplitWsAux [] s

/-- Embedding of `TwitchChatWorker.detect_english_profanity`
(main_gui.py lines 92-134).  The cleaned message is tokenised by whitespace
splitting; when segmentation is available and does not raise, the
space-free cleaned text is segmented and the two token lists are merged
with duplicates removed (`list(set(segmented_words + normal_words))`,
line 111); when it is unavailable (line 119) or raises (line 116) the
whitespace tokens alone are used.  Each token of length at least 3 is then
looked up in the English lexicon (lines 122-126). -/
def words_to_check (segFn : Option (List Char → Option (List (List Char))))
    (message : List Char) : List (List Char) :=
  match segFn with
  | some f =>
    match f (noSpaces (cleanEn message)) with
    | some segmented => (segmented ++ pySplitWs (cleanEn message)).dedup
    | none => pySplitWs (cleanEn message)
  | none => pySplitWs (cleanEn message)

/-- Lookup step of `detect_english_profanity` (main_gui.py lines 122-126):
each candidate of length at least 3 is tested for exact membership in the
English lexicon. -/
def detect_english_profanity (lexEn : List (List Char))
    (segFn : Option (List Char → Option (List (List Char))))
    (message : List Char) : List (List Char) :=
  (words_to_check segFn message).filter
    (fun w => decide (3 ≤ w.length) && decide (w ∈ lexEn))

/-- Whether `sep` occurs as a contiguous block in `s`; the occurrence test
backing Python's `sep in s` and `s.split(sep)`. -/
def occursIn (sep : List Char) : List Char → Bool
  | [] => sep.isEmpty
  | c :: cs => sep.isPrefixOf (c :: cs) || occursIn sep cs

/-- Embedding of `TwitchChatWorker.detect_thai_profanity`
(main_gui.py lines 136-153): a lexicon entry is reported when it is a
contiguous substring of the cleaned message with spaces removed
(`if badword in message_clean_no_space`, line 146).  The Python code
collects matches into a set; `dedup` reflects that. -/
def detect_thai_profanity (lexTh : List (List Char)) (message : List Char) :
    List (List Char) :=
  (lexTh.filter (fun w => occursIn w (noSpaces (cleanTh message)))).dedup

/-- Embedding of `TwitchChatWorker.optimized_detect_bad_words`
(main_gui.py lines 155-174): concatenate both paths' matches and remove
duplicates (`list(set(all_found_words))`, line 169). -/
def optimized_detect_bad_words (lexTh lexEn : List (List Char))
    (segFn : Option (List Char → Option (List (List Char))))
    (message : List Char) : List (List Char) :=
  (detect_thai_profanity lexTh message ++
    detect_english_profanity lexEn segFn message).dedup

/-- The classification boundary of `optimized_detect_bad_words`: the match
list together with whether the `error_occurred` signal was emitted.  The
except-branch at lines 171-174 is the only classification site emitting
`error_occurred`; both detector bodies catch all of their own exceptions
(lines 132-134 and 151-153), so the branch is unreachable and the flag is
constantly `false`. -/
def classify (lexTh lexEn : List (List Char))
    (segFn : Option (List Char → Option (List (List Char))))
    (message : List Char) : List (List Char) × Bool :=
  (optimized_detect_bad_words lexTh lexEn segFn message, false)

/-- Split at the first occurrence of `sep` (nonempty): `some (pre, post)`
with `pre` the text before and `post` the text after the occurrence, or
`none` when `sep` does not occur.  Python's `s.split(sep)` has
`parts[0] = pre` and, for the next piece, continues scanning in `post`;
`s.split(sep, 1)` is exactly `[pre, post]`. -/
def splitFirst (sep : List Char) : List Char → Option (List Char × List Char)
  | [] => if sep.isEmpty then some ([], []) else none
  | c :: cs =>
    if sep.isPrefixOf (c :: cs) && !sep.isEmpty then
      some ([], cs.drop (sep.length - 1))
    else
      match splitFirst sep cs with
      | some pq => some (c :: pq.1, pq.2)
      | none => none

/-- Embedding of Python `str.strip()` (main_gui.py line 317): drop leading
and trailing whitespace. -/
def pyStrip (s : List Char) : List Char :=
  ((s.dropWhile pyIsSpace).reverse.dropWhile pyIsSpace).reverse

/-- The chat-message marker `'PRIVMSG'` (main_gui.py lines 264, 310). -/
def privmsgMarker : List Char := "PRIVMSG".toList

/-- The keep-alive marker checked by `line.startswith('PING')`
(main_gui.py line 257). -/
def pingMarker : List Char := "PING".toList

/-- The keep-alive reply sent for every PING line: the code sends the fixed
string `'PONG :tmi.twitch.tv\r\n'` (main_gui.py line 259) and does not echo
the host of the PING line. -/
def pongLine : List Char := "PONG :tmi.twitch.tv\r\n".toList

/-- A flagged chat event as appended to `self.chat_messages`
(main_gui.py lines 330-336).  The wall-clock timestamp and the channel
name are environment data and are not modelled. -/
structure FlaggedEvent where
  username : List Char
  message : List Char
  bad_words : List (List Char)
deriving DecidableEq

/-- The observable outputs of processing one framed line: bytes written to
the socket, and the `message_received`, `bad_word_detected` and
`chat_stats` signals (main_gui.py lines 35-38). -/
structure Effects where
  outbound : List (List Char)
  messageEvents : List (List Char × List Char)
  flaggedEvents : List FlaggedEvent
  statsEvents : List (Nat × Nat)
deriving DecidableEq

/-- No outbound data and no emitted signals. -/
def noEffects : Effects := ⟨[], [], [], []⟩

/-- The worker counters and bounded history
(main_gui.py lines 48-51). -/
structure WorkerState where
  total_messages : Nat
  bad_word_count : Nat
  chat_messages : List FlaggedEvent
deriving DecidableEq

/-- Embedding of `deque(maxlen=200).append` (main_gui.py lines 51, 341):
append on the right; when the result would exceed 200 entries, drop from
the left down to 200. -/
def histAppend {α : Type} (h : List α) (x : α) : List α :=
  let h' := h ++ [x]
  if 200 < h'.length then h'.drop (h'.length - 200) else h'

/-- Embedding of `TwitchChatWorker.process_chat_message`
(main_gui.py lines 306-352).  `parts = line.split('PRIVMSG')`; when the
marker occurs, `parts[0]` is the text before the first occurrence and
`parts[1]` the text up to the next occurrence (or the rest).  The username
is `parts[0].split('!')[0][1:]` and the message is
`parts[1].split(':', 1)[1].strip()`; a line with no `':'` after the marker
is dropped (lines 314-315).  On success the total counter increments and
`message_received` fires; when classification finds matches the flagged
counter increments, the event is appended to the bounded history and the
`bad_word_detected` and `chat_stats` signals fire (lines 319-349). -/
def process_chat_message (lexTh lexEn : List (List Char))
    (segFn : Option (List Char → Option (List (List Char))))
    (st : WorkerState) (line : List Char) : WorkerState × Effects :=
  match splitFirst privmsgMarker line with
  | none => (st, noEffects)
  | some pq =>
    let part1 :=
      match splitFirst privmsgMarker pq.2 with
      | some pq' => pq'.1
      | none => pq.2
    let user := (pq.1.takeWhile (fun c => !(c == '!'))).drop 1
    match splitFirst [':'] part1 with
    | none => (st, noEffects)
    | some mq =>
      let message := pyStrip mq.2
      let total := st.total_messages + 1
      let found := optimized_detect_bad_words lexTh lexEn segFn message
      if found.isEmpty then
        (⟨total, st.bad_word_count, st.chat_messages⟩,
         ⟨[], [(user, message)], [], []⟩)
      else
        (⟨total, st.bad_word_count + 1,
          histAppend st.chat_messages ⟨user, message, found⟩⟩,
         ⟨[], [(user, message)], [⟨user, message, found⟩],
          [(total, st.bad_word_count + 1)]⟩)

/-- Embedding of the per-line dispatch of `TwitchChatWorker.listen_to_chat`
(main_gui.py lines 253-265): empty lines are skipped, a line starting with
`PING` is answered with the fixed PONG reply, a line containing `PRIVMSG`
goes to `process_chat_message`, anything else is ignored. -/
def handleLine (lexTh lexEn : List (List Char))
    (segFn : Option (List Char → Option (List (List Char))))
    (st : WorkerState) (line : List Char) : WorkerState × Effects :=
  if line.isEmpty then (st, noEffects)
  else if pingMarker.isPrefixOf line then
    (st, ⟨[pongLine], [], [], []⟩)
  else if occursIn privmsgMarker line then
    process_chat_message lexTh lexEn segFn st line
  else (st, noEffects)

/-- One step of the line framer: prepend character `c` to an already framed
tail.  A newline opens a fresh (empty) first line; any other character
extends the first line if one exists and otherwise the retained buffer. -/
def frameCons (c : Char) (p : List (List Char) × List Char) :
    List (List Char) × List Char :=
  if c = '\n' then ([] :: p.1, p.2)
  else
    match p with
    | ([], buf) => ([], c :: buf)
    | (l :: ls, buf) => ((c :: l) :: ls, buf)

/-- Embedding of the buffer discipline of `listen_to_chat`
(main_gui.py lines 246-251): split the text on `'\n'`; the pieces before
each newline are the complete lines, the piece after the last newline is
the retained buffer. -/
def frame : List Char → List (List Char) × List Char
  | [] => ([], [])
  | c :: cs => frameCons c (frame cs)

/-- Feed text chunks through the framer one at a time, threading the
retained buffer (`buffer += data` then the split loop, main_gui.py lines
246-250): returns all complete lines in order and the final buffer. -/
def feedChunks (buf : List Char) : List (List Char) →
    List (List Char) × List Char
  | [] => ([], buf)
  | ch :: rest =>
    let p := frame (buf ++ ch)
    let q := feedChunks p.2 rest
    (p.1 ++ q.1, q.2)

/-- Embedding of `line.rstrip('\r')` (main_gui.py line 251): remove every
trailing carriage return of a framed line. -/
def dropTrailingCr (l : List Char) : List Char :=
  (l.reverse.dropWhile (fun c => c == '\r')).reverse

/-- Embedding of `bytes.decode('utf-8', errors='ignore')`
(main_gui.py line 240): standard UTF-8 decoding where an invalid sequence
is skipped up to its maximal valid subpart (CPython's behaviour for
`errors='ignore'`), including truncated sequences at the end of the
chunk. -/
def decodeUtf8IgnoreAux : Nat → List Nat → List Char
  | 0, _ => []
  | _, [] => []
  | Nat.succ fuel, b :: bs =>
    if b < 128 then Char.ofNat b :: decodeUtf8IgnoreAux fuel bs
    else if 194 ≤ b ∧ b ≤ 223 then
      match bs with
      | [] => []
      | b2 :: bs2 =>
        if 128 ≤ b2 ∧ b2 ≤ 191 then
          Char.ofNat ((b - 192) * 64 + (b2 - 128)) ::
            decodeUtf8IgnoreAux fuel bs2
        else decodeUtf8IgnoreAux fuel bs
    else if 224 ≤ b ∧ b ≤ 239 then
      match bs with
      | [] => []
      | b2 :: bs2 =>
        if (if b = 224 then 160 ≤ b2 ∧ b2 ≤ 191
            else if b = 237 then 128 ≤ b2 ∧ b2 ≤ 159
            else 128 ≤ b2 ∧ b2 ≤ 191) then
          match bs2 with
          | [] => []
          | b3 :: bs3 =>
            if 128 ≤ b3 ∧ b3 ≤ 191 then
              Char.ofNat ((b - 224) * 4096 + (b2 - 128) * 64 + (b3 - 128)) ::
                decodeUtf8IgnoreAux fuel bs3
            else decodeUtf8IgnoreAux fuel bs2
        else decodeUtf8IgnoreAux fuel bs
    else if 240 ≤ b ∧ b ≤ 244 then
      match bs with
      | [] => []
      | b2 :: bs2 =>
        if (if b = 240 then 144 ≤ b2 ∧ b2 ≤ 191
            else if b = 244 then 128 ≤ b2 ∧ b2 ≤ 143
            else 128 ≤ b2 ∧ b2 ≤ 191) then
          match bs2 with
          | [] => []
          | b3 :: bs3 =>
            if 128 ≤ b3 ∧ b3 ≤ 191 then
              match bs3 with
              | [] => []
              | b4 :: bs4 =>
                if 128 ≤ b4 ∧ b4 ≤ 191 then
                  Char.ofNat ((b - 240) * 262144 + (b2 - 128) * 4096 +
                    (b3 - 128) * 64 + (b4 - 128)) ::
                    decodeUtf8IgnoreAux fuel bs4
                else decodeUtf8IgnoreAux fuel bs3
            else decodeUtf8IgnoreAux fuel bs2
        else decodeUtf8IgnoreAux fuel bs
    else decodeUtf8IgnoreAux fuel bs

/-- The decoder at full fuel: one fuel unit is spent per decoded or skipped
lead byte, so a budget of the byte count always suffices. -/
def decodeUtf8Ignore (bytes : List Nat) : List Char :=
  decodeUtf8IgnoreAux bytes.length bytes

/-- The receive pipeline of `listen_to_chat` on a list of byte chunks: each
chunk is decoded on its own with `errors='ignore'` (main_gui.py line 240)
and only then appended to the framing buffer. -/
def listenChunked (chunks : List (List Nat)) : List (List Char) × List Char :=
  feedChunks [] (chunks.map decodeUtf8Ignore)

/-- The same pipeline when all bytes arrive in one receive call. -/
def listenSingle (bytes : List Nat) : List (List Char) × List Char :=
  frame (decodeUtf8Ignore bytes)

/-- `self.max_reconnect_attempts` (main_gui.py line 57). -/
def maxReconnectAttempts : Nat := 5

/-- Result of a `handle_connection_error` call: the final value of
`self.reconnect_attempts`, the returned success flag, and how many
connection attempts the call made. -/
structure ReconnectResult where
  attemptsCounter : Nat
  success : Bool
  attemptsMade : Nat
deriving DecidableEq

/-- The retry loop of `handle_connection_error` (main_gui.py lines
290-304), with the loop's fuel `remaining = max - attempts` made explicit:
each iteration increments the attempt counter and tries to connect
(`conn k` is the outcome of the k-th attempt of the session); success
returns `True` after `connect_to_twitch` reset the counter to 0
(line 192); running out of budget returns `False`. -/
def reconnectAux (conn : Nat → Bool) : Nat → Nat → ReconnectResult
  | attempts, 0 => ⟨attempts, false, 0⟩
  | attempts, Nat.succ rem =>
    if conn (attempts + 1) then ⟨0, true, 1⟩
    else
      let r := reconnectAux conn (attempts + 1) rem
      ⟨r.attemptsCounter, r.success, r.attemptsMade + 1⟩

/-- Embedding of `TwitchChatWorker.handle_connection_error` with the stop
flag `self.running` held true: the while loop runs while
`reconnect_attempts < max_reconnect_attempts`. -/
def handle_connection_error (conn : Nat → Bool) (attempts : Nat) :
    ReconnectResult :=
  reconnectAux conn attempts (maxReconnectAttempts - attempts)

/-- Modelled from the spec (section 4.2): the Thai cleaning step as the
claim C3 words it, case-fold then remove every character outside the
alphabet-plus-Thai-script set and all whitespace.  Used only to compare
the claim against the source's `cleanTh`, which keeps non-space
whitespace. -/
def specThaiCleanAllWs (message : List Char) : List Char :=
  (message.map pyLower).filter (fun c => isAlphaB c || isThaiB c)

/-- The characters that can occur in the Thai path's cleaned space-free
message: lowercase ASCII letters, Thai script, and whitespace other than
the space character (which alone is removed by `.replace(' ', '')`). -/
def allowedThaiB (c : Char) : Bool :=
  isLowerB c || isThaiB c || (pyIsSpace c && !(c == ' '))

/-! Helper lemmas. -/

/-- A valid scalar below the surrogate range round-trips through
`Char.ofNat`. -/
theorem char_toNat_ofNat_of_lt {n : Nat} (h : n < 55296) :
    (Char.ofNat n).toNat = n := by
  simp [Char.ofNat, Nat.isValidChar, h, Char.ofNatAux, Char.toNat, UInt32.toNat]

/-- Case folding never produces an ASCII uppercase letter, so an alphabetic
character surviving the cleaning filters is lowercase. -/
theorem pyLower_alpha_lower {c : Char} (h : isAlphaB (pyLower c) = true) :
    isLowerB (pyLower c) = true := by
  unfold pyLower at *
  by_cases hc : 65 ≤ c.toNat ∧ c.toNat ≤ 90
  · rw [if_pos hc] at h ⊢
    have ht : (Char.ofNat (c.toNat + 32)).toNat = c.toNat + 32 :=
      char_toNat_ofNat_of_lt (by omega)
    unfold isAlphaB isLowerB at *
    rw [ht] at h ⊢
    simp only [Bool.or_eq_true, decide_eq_true_eq] at h ⊢
    omega
  · rw [if_neg hc] at h ⊢
    unfold isAlphaB isLowerB at *
    simp only [Bool.or_eq_true, decide_eq_true_eq] at h ⊢
    omega

/-- Characters of the cleaned English text that are not whitespace are
lowercase ASCII letters. -/
theorem cleanEn_char {msg : List Char} {c : Char} (hc : c ∈ cleanEn msg)
    (hs : pyIsSpace c = false) : isLowerB c = true := by
  unfold cleanEn at hc
  rw [List.mem_filter] at hc
  obtain ⟨hmem, hp⟩ := hc
  rw [List.mem_map] at hmem
  obtain ⟨x, _, rfl⟩ := hmem
  rcases Bool.or_eq_true_iff.mp hp with ha | hw
  · exact pyLower_alpha_lower ha
  · rw [hw] at hs; cases hs

/-- Characters of the space-free cleaned Thai text are lowercase letters,
Thai script, or non-space whitespace. -/
theorem cleanTh_char {msg : List Char} {c : Char}
    (hc : c ∈ noSpaces (cleanTh msg)) : allowedThaiB c = true := by
  unfold noSpaces at hc
  rw [List.mem_filter] at hc
  obtain ⟨hc, hns⟩ := hc
  unfold cleanTh at hc
  rw [List.mem_filter] at hc
  obtain ⟨hmem, hp⟩ := hc
  rw [List.mem_map] at hmem
  obtain ⟨x, _, rfl⟩ := hmem
  unfold allowedThaiB
  rcases Bool.or_eq_true_iff.mp hp with hat | hw
  · rcases Bool.or_eq_true_iff.mp hat with ha | ht
    · simp [pyLower_alpha_lower ha]
    · simp [ht]
  · simp [hw, hns]

/-- An occurring block's characters all belong to the host string. -/
theorem occursIn_subset {w s : List Char} (h : occursIn w s = true) :
    ∀ c ∈ w, c ∈ s := by
  induction s with
  | nil =>
    intro c hc
    unfold occursIn at h
    rw [List.isEmpty_iff.mp h] at hc
    cases hc
  | cons a as ih =>
    intro c hc
    unfold occursIn at h
    rcases Bool.or_eq_true_iff.mp h with hp | ho
    · exact (List.isPrefixOf_iff_prefix.mp hp).subset hc
    · exact List.mem_cons_of_mem a (ih ho c hc)

/-- A single character that is not an element does not occur as a block. -/
theorem occursIn_single_of_not_mem {x : Char} {s : List Char} (h : x ∉ s) :
    occursIn [x] s = false := by
  induction s with
  | nil => rfl
  | cons a as ih =>
    rw [List.mem_cons, not_or] at h
    obtain ⟨h1, h2⟩ := h
    unfold occursIn
    simp [List.isPrefixOf, ih h2, h1]

/-! Claims about the classifier's overall result. -/

/-- C1: for every message, the overall result of
`optimized_detect_bad_words` is the union of the Thai-path matches and the
English-path matches with duplicates removed, as an unordered (set-valued)
collection: its finset of entries is the union of the two paths' finsets,
and no term appears twice in it. -/
theorem c1_union_dedup (lexTh lexEn : List (List Char))
    (segFn : Option (List Char → Option (List (List Char))))
    (msg : List Char) :
    (optimized_detect_bad_words lexTh lexEn segFn msg).toFinset =
        (detect_thai_profanity lexTh msg).toFinset ∪
          (detect_english_profanity lexEn segFn msg).toFinset ∧
      (optimized_detect_bad_words lexTh lexEn segFn msg).Nodup := by
  constructor
  · ext x
    simp [optimized_detect_bad_words, List.mem_dedup]
  · exact List.nodup_dedup _

/-- C3 (amended): a Thai lexicon entry is in the Thai-path result iff it is
in the lexicon and occurs as a contiguous substring of the message after
case-folding, removing every character outside the letters-plus-Thai-script
plus-whitespace set, and removing all space characters (U+0020); other
whitespace characters are kept, not removed. -/
theorem c3_thai_substring (lexTh : List (List Char)) (msg w : List Char) :
    w ∈ detect_thai_profanity lexTh msg ↔
      w ∈ lexTh ∧ occursIn w (noSpaces (cleanTh msg)) = true := by
  simp [detect_thai_profanity, List.mem_dedup, List.mem_filter]

/-- C3 counterexample: with the Thai lexicon entry `กข` and the message
`ก<TAB>ข`, the claim as stated predicts a match (after removing all
whitespace the entry is a substring of the cleaned message), but the code
keeps the tab — only the space character is removed — so the entry is not
reported. -/
theorem c3_counterexample :
    "กข".toList ∉ detect_thai_profanity ["กข".toList] "ก\tข".toList ∧
      occursIn "กข".toList (specThaiCleanAllWs "ก\tข".toList) = true := by
  decide

/-! Claim about the reconnection budget. -/

/-- C9: five consecutive failed reconnection attempts exhaust the retry
budget: the call returns failure (the `Failed` outcome) with the attempt
counter at the maximum, and every later invocation of
`handle_connection_error` in the session returns immediately, making zero
further connection attempts. -/
theorem c9_retry_budget :
    (∀ conn : Nat → Bool, (∀ k, conn k = false) →
        handle_connection_error conn 0 =
          ⟨maxReconnectAttempts, false, maxReconnectAttempts⟩) ∧
      ∀ conn : Nat → Bool,
        handle_connection_error conn maxReconnectAttempts =
          ⟨maxReconnectAttempts, false, 0⟩ := by
  constructor
  · intro conn h
    simp [handle_connection_error, maxReconnectAttempts, reconnectAux, h]
  · intro conn
    rfl

/-- C9 witness: the all-failures oracle realizes the hypothesis of the
budget theorem. -/
theorem c9_witness :
    handle_connection_error (fun _ => false) 0 = ⟨5, false, 5⟩ :=
  c9_retry_budget.1 (fun _ => false) (fun _ => rfl)

/-! Claim about the bounded flagged-event history. -/

/-- Folding appends into the empty bounded history keeps exactly the most
recent 200 events. -/
theorem foldl_histAppend_drop {α : Type} (evs : List α) :
    List.foldl histAppend [] evs = evs.drop (evs.length - 200) := by
  induction evs using List.reverseRecOn with
  | nil => simp
  | append_singleton l x ih =>
    rw [List.foldl_concat, ih]
    unfold histAppend
    by_cases hl : l.length < 200
    · have h0 : l.length - 200 = 0 := by omega
      have h1 : (l ++ [x]).length - 200 = 0 := by
        simp only [List.length_append, List.length_singleton]; omega
      rw [h0, h1]
      simp only [List.drop_zero]
      rw [if_neg (by
        simp only [List.length_append, List.length_singleton]; omega)]
    · have hdlen : (l.drop (l.length - 200)).length = 200 := by
        rw [List.length_drop]; omega
      have hcond : 200 < (l.drop (l.length - 200) ++ [x]).length := by
        simp only [List.length_append, List.length_singleton, hdlen]; omega
      rw [if_pos hcond]
      have hd1 : (l.drop (l.length - 200) ++ [x]).length - 200 = 1 := by
        simp only [List.length_append, List.length_singleton, hdlen]
      rw [hd1]
      rw [List.drop_append_of_le_length (by rw [hdlen]; omega)]
      rw [List.drop_drop]
      rw [List.drop_append_of_le_length (by
        simp only [List.length_append, List.length_singleton]; omega)]
      simp only [List.length_append, List.length_singleton]
      have harith : l.length - 200 + 1 = l.length + 1 - 200 := by omega
      rw [harith]

/-- C7: the bounded history never exceeds 200 events; appending to a full
history evicts exactly the oldest element, preserving the relative order of
the rest; and recording 201 events starting from empty leaves the history
holding events 2 through 201 in order. -/
theorem c7_bounded_history :
    (∀ (h : List FlaggedEvent) (x : FlaggedEvent),
        (histAppend h x).length ≤ 200) ∧
      (∀ (h : List FlaggedEvent) (x : FlaggedEvent), h.length = 200 →
        histAppend h x = h.tail ++ [x]) ∧
      ∀ evs : List FlaggedEvent, evs.length = 201 →
        List.foldl histAppend [] evs = evs.tail := by
  refine ⟨?_, ?_, ?_⟩
  · intro h x
    unfold histAppend
    by_cases hc : 200 < (h ++ [x]).length
    · rw [if_pos hc, List.length_drop]; omega
    · rw [if_neg hc]; omega
  · intro h x hlen
    unfold histAppend
    rw [if_pos (by
      simp only [List.length_append, List.length_singleton, hlen]; omega)]
    have h1 : (h ++ [x]).length - 200 = 1 := by
      simp only [List.length_append, List.length_singleton, hlen]
    rw [h1, List.drop_append_of_le_length (by omega), List.drop_one]
  · intro evs hlen
    rw [foldl_histAppend_drop, hlen]
    simp [List.drop_one]

/-- C7 witness: a concrete full history of 200 events plus one more, and a
concrete run of 201 recorded events. -/
theorem c7_witness :
    (histAppend (List.replicate 200 (⟨[], [], []⟩ : FlaggedEvent))
          ⟨['a'], [], []⟩).length ≤ 200 ∧
      histAppend (List.replicate 200 (⟨[], [], []⟩ : FlaggedEvent))
          ⟨['a'], [], []⟩ =
        (List.replicate 200 (⟨[], [], []⟩ : FlaggedEvent)).tail ++
          [⟨['a'], [], []⟩] ∧
      List.foldl histAppend []
          (List.replicate 201 (⟨[], [], []⟩ : FlaggedEvent)) =
        (List.replicate 201 (⟨[], [], []⟩ : FlaggedEvent)).tail :=
  ⟨c7_bounded_history.1 _ _,
   c7_bounded_history.2.1 _ _ (by rw [List.length_replicate]),
   c7_bounded_history.2.2 _ (by rw [List.length_replicate])⟩

/-! Claim about classification error handling. -/

/-- C8 counterexample: with the English lexicon containing `bad` and a
segmentation call that raises, classifying `so bad` does not yield an empty
match set — the whitespace fallback still reports `bad` — and no
`error_occurred` signal is emitted. -/
theorem c8_counterexample :
    (classify [] ["bad".toList] (some (fun _ => none)) "so bad".toList).1 =
        ["bad".toList] ∧
      (classify [] ["bad".toList] (some (fun _ => none))
          "so bad".toList).2 = false := by
  constructor
  · rfl
  · rfl

/-- C8 (amended): classification is total — every internal failure path
returns a defined result.  An internal segmentation failure is recovered
inside the English path: the call behaves exactly as if segmentation were
unavailable (whitespace tokens alone, result possibly non-empty) and the
classifier's own `error_occurred` signal is not emitted, since both
detectors catch their own exceptions and the classifier's top-level
except-branch is unreachable. -/
theorem c8_total_on_seg_failure (lexTh lexEn : List (List Char))
    (f : List Char → Option (List (List Char))) (msg : List Char)
    (hfail : f (noSpaces (cleanEn msg)) = none) :
    classify lexTh lexEn (some f) msg =
      (optimized_detect_bad_words lexTh lexEn none msg, false) := by
  simp [classify, optimized_detect_bad_words, detect_english_profanity,
    words_to_check, hfail]

/-- C8 witness: a concrete raising segmentation call. -/
theorem c8_witness :
    classify [] ["bad".toList] (some (fun _ => none)) "so bad".toList =
      (optimized_detect_bad_words [] ["bad".toList] none "so bad".toList,
        false) :=
  c8_total_on_seg_failure [] ["bad".toList] (fun _ => none) "so bad".toList
    rfl

/-! Claim about the line framer. -/

/-- Splitting text into lines composes: framing `a ++ b` emits the lines of
`a` followed by the lines of `a`'s retained buffer prepended to `b`. -/
theorem frame_append (a b : List Char) :
    frame (a ++ b) = ((frame a).1 ++ (frame ((frame a).2 ++ b)).1,
      (frame ((frame a).2 ++ b)).2) := by
  induction a with
  | nil => simp [frame]
  | cons c a' ih =>
    show frameCons c (frame (a' ++ b)) = _
    rw [ih]
    by_cases hc : c = '\n'
    · simp only [frame, frameCons, if_pos hc, List.cons_append]
    · rcases hfa : frame a' with ⟨ls, buf⟩
      cases ls with
      | nil =>
        simp only [frame, frameCons, if_neg hc, hfa, List.nil_append,
          List.cons_append]
      | cons l ls' =>
        simp only [frame, frameCons, if_neg hc, hfa, List.cons_append]

/-- The retained buffer never contains a newline. -/
theorem frame_buf_no_newline (s : List Char) : ∀ c ∈ (frame s).2, ¬ c = '\n' := by
  induction s with
  | nil => intro c hc; cases hc
  | cons a as ih =>
    intro c hc
    by_cases ha : a = '\n'
    · rw [show frame (a :: as) = frameCons a (frame as) from rfl] at hc
      simp only [frameCons, if_pos ha] at hc
      exact ih c hc
    · rw [show frame (a :: as) = frameCons a (frame as) from rfl] at hc
      simp only [frameCons, if_neg ha] at hc
      rcases hfa : frame as with ⟨ls, buf⟩
      rw [hfa] at hc
      cases ls with
      | nil =>
        simp only [List.mem_cons] at hc
        rcases hc with rfl | hc
        · exact ha
        · exact ih c (by rw [hfa]; exact hc)
      | cons l ls' => exact ih c (by rw [hfa]; exact hc)

/-- Newline-free text frames to no lines and itself as buffer. -/
theorem frame_of_no_newline {s : List Char} (h : ∀ c ∈ s, ¬ c = '\n') :
    frame s = ([], s) := by
  induction s with
  | nil => rfl
  | cons a as ih =>
    have ha := h a (List.mem_cons_self a as)
    show frameCons a (frame as) = _
    rw [ih (fun c hc => h c (List.mem_cons_of_mem a hc)), frameCons,
      if_neg ha]

/-- Feeding chunks through the stateful framer equals framing their
concatenation, for any newline-free starting buffer. -/
theorem feedChunks_eq_frame_flatten (chunks : List (List Char)) :
    ∀ buf : List Char, (∀ c ∈ buf, ¬ c = '\n') →
      feedChunks buf chunks = frame (buf ++ chunks.flatten) := by
  induction chunks with
  | nil =>
    intro buf hbuf
    rw [show feedChunks buf [] = ([], buf) from rfl]
    rw [List.flatten_nil, List.append_nil, frame_of_no_newline hbuf]
  | cons ch rest ih =>
    intro buf hbuf
    show ((frame (buf ++ ch)).1 ++ (feedChunks (frame (buf ++ ch)).2 rest).1,
      (feedChunks (frame (buf ++ ch)).2 rest).2) = _
    rw [ih (frame (buf ++ ch)).2 (frame_buf_no_newline (buf ++ ch))]
    rw [List.flatten_cons, ← List.append_assoc]
    rw [frame_append (buf ++ ch) rest.flatten]

/-- C4 (amended): for every sequence of decoded text chunks — equivalently,
for every partition of the byte stream whose chunk boundaries do not split
a multi-byte UTF-8 character — feeding the chunks one at a time through the
framer yields the same complete lines (with trailing carriage returns
trimmed) and the same retained buffer as framing the whole text at once.
Byte partitions that split a multi-byte character are excluded: each chunk
is decoded independently before framing, which drops such a character. -/
theorem c4_chunk_independence (chunks : List (List Char)) :
    (feedChunks [] chunks).1.map dropTrailingCr =
        (frame chunks.flatten).1.map dropTrailingCr ∧
      (feedChunks [] chunks).2 = (frame chunks.flatten).2 := by
  have h := feedChunks_eq_frame_flatten chunks [] (by intro c hc; cases hc)
  rw [List.nil_append] at h
  rw [h]
  exact ⟨rfl, rfl⟩

/-- C4 counterexample: the byte sequence of `กa\n` (the Thai letter is
three bytes) split after its first byte.  Fed as two chunks the per-chunk
decode with `errors='ignore'` discards the split character and the framer
yields the line `a`; fed as a single chunk it yields the line `กa`.  The
partition point falls inside a multi-byte character, so byte-level
chunk-boundary independence fails. -/
theorem c4_counterexample :
    List.flatten [[224], [184, 129, 97, 10]] = [224, 184, 129, 97, 10] ∧
      (listenChunked [[224], [184, 129, 97, 10]]).1.map dropTrailingCr ≠
        (listenSingle [224, 184, 129, 97, 10]).1.map dropTrailingCr := by
  constructor
  · rfl
  · decide

/-! Claims about the classifier's token construction and dead entries. -/

/-- Characters of whitespace-split tokens satisfy any property enjoyed by
the non-whitespace characters of the split text. -/
theorem pySplitWsAux_chars {Q : Char → Prop} :
    ∀ (s cur : List Char), (∀ c ∈ cur, Q c) →
      (∀ c ∈ s, pyIsSpace c = false → Q c) →
      ∀ w ∈ pySplitWsAux cur s, ∀ c ∈ w, Q c := by
  intro s
  induction s with
  | nil =>
    intro cur hcur _ w hw c hc
    unfold pySplitWsAux at hw
    by_cases he : cur.isEmpty
    · rw [if_pos he] at hw; cases hw
    · rw [if_neg he] at hw
      rcases List.mem_singleton.mp hw with rfl
      exact hcur c (List.mem_reverse.mp hc)
  | cons a as ih =>
    intro cur hcur hs w hw c hc
    have hs' : ∀ c ∈ as, pyIsSpace c = false → Q c :=
      fun c hc => hs c (List.mem_cons_of_mem a hc)
    unfold pySplitWsAux at hw
    by_cases hsp : pyIsSpace a
    · rw [if_pos hsp] at hw
      by_cases he : cur.isEmpty
      · rw [if_pos he] at hw
        exact ih [] (fun c hc => (List.not_mem_nil c hc).elim) hs' w hw c hc
      · rw [if_neg he] at hw
        rcases List.mem_cons.mp hw with rfl | hw'
        · exact hcur c (List.mem_reverse.mp hc)
        · exact ih [] (fun c hc => (List.not_mem_nil c hc).elim) hs' w hw' c hc
    · rw [if_neg hsp] at hw
      have hfa : pyIsSpace a = false := by
        rwa [Bool.not_eq_true] at hsp
      have hacur : ∀ x ∈ a :: cur, Q x := by
        intro x hx
        rcases List.mem_cons.mp hx with heq | hx'
        · rw [heq]; exact hs a (List.mem_cons_self a as) hfa
        · exact hcur x hx'
      exact ih (a :: cur) hacur hs' w hw c hc

/-- Every character of every English whitespace token is a lowercase ASCII
letter. -/
theorem pySplitWs_cleanEn_lower (msg : List Char) :
    ∀ w ∈ pySplitWs (cleanEn msg), ∀ c ∈ w, isLowerB c = true :=
  pySplitWsAux_chars (cleanEn msg) []
    (fun c hc => (List.not_mem_nil c hc).elim)
    (fun c hc hsp => cleanEn_char hc hsp)

/-- C10 (amended): lexicon entries that cannot survive their path's
cleaning are dead.  English path: provided segmentation emits only
lowercase-letter tokens (true of the external dictionary segmenter, whose
output tokens are drawn from the cleaned run-on input), an entry containing
any character other than a lowercase ASCII letter, or shorter than 3
characters, is never returned.  Thai path: an entry containing a space or
any character outside the lowercase-letters/Thai-script/non-space-whitespace
set is never returned; an entry containing non-space whitespace (such as a
tab) CAN still match, so the original claim's "containing whitespace" is
weakened to "containing a space". -/
theorem c10_dead_entries :
    (∀ (lexEn : List (List Char))
        (segFn : Option (List Char → Option (List (List Char))))
        (msg e : List Char),
      (∀ f ts, segFn = some f → f (noSpaces (cleanEn msg)) = some ts →
        ∀ w ∈ ts, ∀ c ∈ w, isLowerB c = true) →
      ((∃ c ∈ e, isLowerB c = false) ∨ e.length < 3) →
      e ∉ detect_english_profanity lexEn segFn msg) ∧
    ∀ (lexTh : List (List Char)) (msg e : List Char),
      (∃ c ∈ e, allowedThaiB c = false) →
      e ∉ detect_thai_profanity lexTh msg := by
  constructor
  · intro lexEn segFn msg e hseg hbad hmem
    unfold detect_english_profanity at hmem
    rw [List.mem_filter] at hmem
    obtain ⟨htok, hcond⟩ := hmem
    rw [Bool.and_eq_true, decide_eq_true_eq, decide_eq_true_eq] at hcond
    have hlower : ∀ c ∈ e, isLowerB c = true := by
      unfold words_to_check at htok
      match hsf : segFn with
      | none =>
        exact pySplitWs_cleanEn_lower msg e htok
      | some f =>
        have htok2 : e ∈ (match f (noSpaces (cleanEn msg)) with
            | some segmented => (segmented ++ pySplitWs (cleanEn msg)).dedup
            | none => pySplitWs (cleanEn msg)) := htok
        match hts : f (noSpaces (cleanEn msg)) with
        | none =>
          rw [hts] at htok2
          exact pySplitWs_cleanEn_lower msg e htok2
        | some ts =>
          rw [hts] at htok2
          rw [List.mem_dedup, List.mem_append] at htok2
          rcases htok2 with hseg' | hws
          · exact hseg f ts rfl hts e hseg'
          · exact pySplitWs_cleanEn_lower msg e hws
    rcases hbad with ⟨c, hc, hcl⟩ | hlen
    · rw [hlower c hc] at hcl; cases hcl
    · omega
  · intro lexTh msg e hbad hmem
    unfold detect_thai_profanity at hmem
    rw [List.mem_dedup, List.mem_filter] at hmem
    obtain ⟨-, hocc⟩ := hmem
    obtain ⟨c, hc, hcb⟩ := hbad
    have := cleanTh_char (occursIn_subset hocc c hc)
    rw [this] at hcb
    cases hcb

/-- C10 witness: an entry with an uppercase letter is dead on the English
path, and an entry containing a space is dead on the Thai path, even
against a message equal to the entry itself. -/
theorem c10_witness :
    "Bad".toList ∉
        detect_english_profanity ["Bad".toList] none "Bad".toList ∧
      "x y".toList ∉ detect_thai_profanity ["x y".toList] "x y".toList :=
  ⟨c10_dead_entries.1 ["Bad".toList] none "Bad".toList "Bad".toList
      (fun _ _ h => nomatch h)
      (Or.inl ⟨'B', by decide, by decide⟩),
    c10_dead_entries.2 ["x y".toList] "x y".toList "x y".toList
      ⟨' ', by decide, by decide⟩⟩

/-- C10 counterexample: a Thai lexicon entry containing a tab — whitespace,
and outside the letters-plus-Thai-script alphabet — nonetheless matches the
message containing the same characters, because the code removes only
spaces from the cleaned message, refuting the claim that entries containing
whitespace are never returned. -/
theorem c10_counterexample :
    "a\tb".toList ∈
        detect_thai_profanity ["a\tb".toList] "a\tb".toList ∧
      pyIsSpace '\t' = true := by
  decide

/-- Unfolding of the candidate construction on a successful segmentation
call. -/
theorem words_to_check_seg_some {f : List Char → Option (List (List Char))}
    {msg : List Char} {segs : List (List Char)}
    (hf : f (noSpaces (cleanEn msg)) = some segs) :
    words_to_check (some f) msg =
      (segs ++ pySplitWs (cleanEn msg)).dedup := by
  show (match f (noSpaces (cleanEn msg)) with
    | some segmented => (segmented ++ pySplitWs (cleanEn msg)).dedup
    | none => pySplitWs (cleanEn msg)) = _
  rw [hf]

/-- Unfolding of the candidate construction on a failing segmentation
call. -/
theorem words_to_check_seg_none {f : List Char → Option (List (List Char))}
    {msg : List Char} (hf : f (noSpaces (cleanEn msg)) = none) :
    words_to_check (some f) msg = pySplitWs (cleanEn msg) := by
  show (match f (noSpaces (cleanEn msg)) with
    | some segmented => (segmented ++ pySplitWs (cleanEn msg)).dedup
    | none => pySplitWs (cleanEn msg)) = _
  rw [hf]

/-- C2: the English path's candidate set is the deduplicated union of the
whitespace tokens of the cleaned text and the segmentation of the
space-free cleaned text; exactly the candidates of length at least 3 are
tested for exact lexicon membership; and when segmentation is unavailable
or its call fails, the path uses the whitespace tokens alone for that call
and still returns a (defined) result. -/
theorem c2_english_path :
    (∀ (lexEn : List (List Char)) (f : List Char → Option (List (List Char)))
        (segs : List (List Char)) (msg : List Char),
      f (noSpaces (cleanEn msg)) = some segs →
      (∀ w, w ∈ detect_english_profanity lexEn (some f) msg ↔
          (w ∈ segs ∨ w ∈ pySplitWs (cleanEn msg)) ∧
            3 ≤ w.length ∧ w ∈ lexEn) ∧
        (words_to_check (some f) msg).Nodup) ∧
      (∀ (lexEn : List (List Char))
          (f : List Char → Option (List (List Char))) (msg : List Char),
        f (noSpaces (cleanEn msg)) = none →
        detect_english_profanity lexEn (some f) msg =
          detect_english_profanity lexEn none msg) ∧
      ∀ (lexEn : List (List Char)) (msg w : List Char),
        w ∈ detect_english_profanity lexEn none msg ↔
          w ∈ pySplitWs (cleanEn msg) ∧ 3 ≤ w.length ∧ w ∈ lexEn := by
  refine ⟨?_, ?_, ?_⟩
  · intro lexEn f segs msg hf
    constructor
    · intro w
      unfold detect_english_profanity
      rw [words_to_check_seg_some hf]
      rw [List.mem_filter, List.mem_dedup, List.mem_append]
      simp only [Bool.and_eq_true, decide_eq_true_eq]
    · rw [words_to_check_seg_some hf]
      exact List.nodup_dedup _
  · intro lexEn f msg hf
    unfold detect_english_profanity
    rw [words_to_check_seg_none hf]
    rfl
  · intro lexEn msg w
    unfold detect_english_profanity
    rw [List.mem_filter]
    simp only [Bool.and_eq_true, decide_eq_true_eq]
    tauto

/-- C2 witness: a concrete successful segmentation, a concrete failing one,
and the unavailable case, all at explicit inputs. -/
theorem c2_witness :
    ("curse".toList ∈ detect_english_profanity ["curse".toList]
        (some (fun _ => some ["curse".toList])) "thisiscurse".toList) ∧
      detect_english_profanity ["bad".toList]
          (some (fun _ => none)) "so bad".toList =
        detect_english_profanity ["bad".toList] none "so bad".toList ∧
      ("bad".toList ∈ detect_english_profanity ["bad".toList] none
        "so bad".toList) :=
  ⟨((c2_english_path.1 ["curse".toList] (fun _ => some ["curse".toList])
        ["curse".toList] "thisiscurse".toList rfl).1 "curse".toList).mpr
      (by decide),
    c2_english_path.2.1 ["bad".toList] (fun _ => none) "so bad".toList rfl,
    (c2_english_path.2.2 ["bad".toList] "so bad".toList "bad".toList).mpr
      (by decide)⟩

/-! Claims about PRIVMSG parsing and the PING reply. -/

/-- When the separator does not occur, the split finds nothing. -/
theorem splitFirst_of_not_occurs {sep s : List Char}
    (h : occursIn sep s = false) : splitFirst sep s = none := by
  induction s with
  | nil =>
    have hne : sep.isEmpty = false := h
    simp [splitFirst, hne]
  | cons a as ih =>
    have h' : (sep.isPrefixOf (a :: as) || occursIn sep as) = false := h
    rcases Bool.or_eq_false_iff.mp h' with ⟨hp, ho⟩
    simp [splitFirst, hp, ih ho]

/-- A separator that is not a prefix of `pre ++ sep.dropLast` is not a
prefix of any extension `pre ++ sep ++ b` either (for nonempty `pre`):
such a prefix occurrence would fit inside `pre ++ sep.dropLast`. -/
theorem isPrefixOf_extend_false {sep pre : List Char} (hsep : sep ≠ [])
    (hpre : pre ≠ [])
    (hp : sep.isPrefixOf (pre ++ sep.dropLast) = false) (b : List Char) :
    sep.isPrefixOf (pre ++ (sep ++ b)) = false := by
  by_contra hcon
  rw [Bool.not_eq_false] at hcon
  have htrue := List.isPrefixOf_iff_prefix.mp hcon
  have hsd : sep.dropLast ++ [sep.getLast hsep] = sep :=
    List.dropLast_append_getLast hsep
  have hshape : pre ++ (sep ++ b) =
      (pre ++ sep.dropLast) ++ ([sep.getLast hsep] ++ b) := by
    conv_lhs => rw [← hsd]
    simp [List.append_assoc]
  rw [hshape] at htrue
  have hle : sep.length ≤ (pre ++ sep.dropLast).length := by
    rw [List.length_append, List.length_dropLast]
    have h1 : 1 ≤ pre.length := List.length_pos.mpr hpre
    have h2 : 1 ≤ sep.length := List.length_pos.mpr hsep
    omega
  have heq := List.prefix_iff_eq_take.mp htrue
  rw [List.take_append_of_le_length hle] at heq
  have hpre2 : sep <+: pre ++ sep.dropLast := List.prefix_iff_eq_take.mpr heq
  rw [List.isPrefixOf_iff_prefix.mpr hpre2] at hp
  cases hp

/-- Splitting at the canonical occurrence: when no occurrence of the
separator starts inside `a`, the first split of `a ++ sep ++ b` is exactly
`(a, b)`. -/
theorem splitFirst_append {sep : List Char} (hsep : sep ≠ []) :
    ∀ {a : List Char} (b : List Char),
      occursIn sep (a ++ sep.dropLast) = false →
      splitFirst sep (a ++ (sep ++ b)) = some (a, b) := by
  intro a
  induction a with
  | nil =>
    intro b _
    obtain ⟨s0, sep', rfl⟩ := List.exists_cons_of_ne_nil hsep
    have hpre : (s0 :: sep').isPrefixOf ((s0 :: sep') ++ b) = true :=
      List.isPrefixOf_iff_prefix.mpr (List.prefix_append _ _)
    rw [List.nil_append]
    show (if (s0 :: sep').isPrefixOf ((s0 :: sep') ++ b) &&
        !(s0 :: sep').isEmpty then
        some (([] : List Char), (sep' ++ b).drop ((s0 :: sep').length - 1))
      else
        match splitFirst (s0 :: sep') (sep' ++ b) with
        | some pq => some (s0 :: pq.1, pq.2)
        | none => none) = some ([], b)
    rw [hpre]
    simp only [List.isEmpty_cons, Bool.not_false, Bool.and_self, if_true]
    rw [List.length_cons, Nat.add_sub_cancel, List.drop_left]
  | cons x a' ih =>
    intro b h
    have h' : (sep.isPrefixOf ((x :: a') ++ sep.dropLast) ||
        occursIn sep (a' ++ sep.dropLast)) = false := h
    rcases Bool.or_eq_false_iff.mp h' with ⟨hp, ho⟩
    have hnp : sep.isPrefixOf ((x :: a') ++ (sep ++ b)) = false :=
      isPrefixOf_extend_false hsep (by simp) hp b
    show (if sep.isPrefixOf ((x :: a') ++ (sep ++ b)) && !sep.isEmpty then
        some (([] : List Char),
          (a' ++ (sep ++ b)).drop (sep.length - 1))
      else
        match splitFirst sep (a' ++ (sep ++ b)) with
        | some pq => some (x :: pq.1, pq.2)
        | none => none) = some (x :: a', b)
    rw [hnp, ih b ho]
    simp

/-- Text before the first `'!'` of an exclamation-free list. -/
theorem takeWhile_until_bang {l : List Char} (h : ∀ c ∈ l, ¬ c = '!')
    (r : List Char) :
    (l ++ '!' :: r).takeWhile (fun c => !(c == '!')) = l := by
  induction l with
  | nil =>
    rw [List.nil_append, List.takeWhile_cons]
    rw [if_neg (by decide)]
  | cons a as ih =>
    have ha : ¬ a = '!' := h a (List.mem_cons_self a as)
    rw [List.cons_append, List.takeWhile_cons]
    rw [if_pos (by simp [ha])]
    rw [ih (fun c hc => h c (List.mem_cons_of_mem a hc))]

/-- The username extraction `parts[0].split('!')[0][1:]` on a well-formed
prefix `:nick!rest`. -/
theorem user_extract {nick : List Char} (rest1 : List Char)
    (hnick : '!' ∉ nick) :
    ((':' :: (nick ++ '!' :: rest1)).takeWhile
        (fun c => !(c == '!'))).drop 1 = nick := by
  rw [List.takeWhile_cons]
  rw [if_pos (by decide)]
  rw [takeWhile_until_bang (fun c hc heq => hnick (heq ▸ hc)) rest1]
  rw [List.drop_one, List.tail_cons]

/-- Splitting on the first colon of `mid ++ ':' :: msg` when `mid` is
colon-free. -/
theorem splitFirst_colon {mid : List Char} (msg : List Char)
    (hmid : ':' ∉ mid) :
    splitFirst [':'] (mid ++ ':' :: msg) = some (mid, msg) := by
  have h := @splitFirst_append [':'] (by decide) mid msg
    (by rw [show ([':'] : List Char).dropLast = [] from rfl, List.append_nil]
        exact occursIn_single_of_not_mem hmid)
  exact h

/-- C5 (amended): `parts = line.split('PRIVMSG')` makes the ACTIVE SEGMENT
`parts[1]` the text strictly between the first and second marker
occurrences, or all text after the marker when it occurs only once.  For
every line containing the marker, the extracted username is the text
between the leading sigil and the first `'!'` of the text before the first
occurrence, the emitted message is the text after the first `':'` OF THE
ACTIVE SEGMENT with surrounding whitespace stripped (`strip()`), and the
total counter increments; the line is silently dropped — state unchanged,
no events, no counter change — exactly when the active segment contains no
`':'`, even if a `':'` occurs later in the line.  The four conjuncts cover,
in order: one occurrence with a colon, a repeated marker with a colon in
the active segment (message truncated at the second occurrence), one
occurrence without a colon, and a repeated marker whose active segment has
no colon (dropped despite any later colon, `tail` being arbitrary). -/
theorem c5_privmsg_parsing :
    (∀ (nick rest1 mid msg : List Char) (lexTh lexEn : List (List Char))
        (segFn : Option (List Char → Option (List (List Char))))
        (st : WorkerState),
      '!' ∉ nick → ':' ∉ mid →
      occursIn privmsgMarker
        ((':' :: (nick ++ '!' :: rest1)) ++ privmsgMarker.dropLast) = false →
      occursIn privmsgMarker (mid ++ ':' :: msg) = false →
      (process_chat_message lexTh lexEn segFn st
          ((':' :: (nick ++ '!' :: rest1)) ++
            (privmsgMarker ++ (mid ++ ':' :: msg)))).2.messageEvents =
          [(nick, pyStrip msg)] ∧
        (process_chat_message lexTh lexEn segFn st
            ((':' :: (nick ++ '!' :: rest1)) ++
              (privmsgMarker ++ (mid ++ ':' :: msg)))).1.total_messages =
          st.total_messages + 1) ∧
    (∀ (nick rest1 mid msg tail : List Char) (lexTh lexEn : List (List Char))
        (segFn : Option (List Char → Option (List (List Char))))
        (st : WorkerState),
      '!' ∉ nick → ':' ∉ mid →
      occursIn privmsgMarker
        ((':' :: (nick ++ '!' :: rest1)) ++ privmsgMarker.dropLast) = false →
      occursIn privmsgMarker
        ((mid ++ ':' :: msg) ++ privmsgMarker.dropLast) = false →
      (process_chat_message lexTh lexEn segFn st
          ((':' :: (nick ++ '!' :: rest1)) ++
            (privmsgMarker ++
              ((mid ++ ':' :: msg) ++
                (privmsgMarker ++ tail))))).2.messageEvents =
          [(nick, pyStrip msg)] ∧
        (process_chat_message lexTh lexEn segFn st
            ((':' :: (nick ++ '!' :: rest1)) ++
              (privmsgMarker ++
                ((mid ++ ':' :: msg) ++
                  (privmsgMarker ++ tail))))).1.total_messages =
          st.total_messages + 1) ∧
    (∀ (pre post : List Char) (lexTh lexEn : List (List Char))
        (segFn : Option (List Char → Option (List (List Char))))
        (st : WorkerState),
      occursIn privmsgMarker (pre ++ privmsgMarker.dropLast) = false →
      occursIn privmsgMarker post = false → ':' ∉ post →
      process_chat_message lexTh lexEn segFn st
        (pre ++ (privmsgMarker ++ post)) = (st, noEffects)) ∧
    ∀ (pre mid2 tail : List Char) (lexTh lexEn : List (List Char))
        (segFn : Option (List Char → Option (List (List Char))))
        (st : WorkerState),
      occursIn privmsgMarker (pre ++ privmsgMarker.dropLast) = false →
      occursIn privmsgMarker (mid2 ++ privmsgMarker.dropLast) = false →
      ':' ∉ mid2 →
      process_chat_message lexTh lexEn segFn st
        (pre ++ (privmsgMarker ++ (mid2 ++ (privmsgMarker ++ tail)))) =
        (st, noEffects) := by
  have hsep : privmsgMarker ≠ [] := by decide
  refine ⟨?_, ?_, ?_, ?_⟩
  · intro nick rest1 mid msg lexTh lexEn segFn st hnick hmid hpre hpost
    have h1 := @splitFirst_append privmsgMarker hsep
      (':' :: (nick ++ '!' :: rest1)) (mid ++ ':' :: msg) hpre
    have h2 : splitFirst privmsgMarker (mid ++ ':' :: msg) = none :=
      splitFirst_of_not_occurs hpost
    have h3 : splitFirst [':'] (mid ++ ':' :: msg) = some (mid, msg) :=
      splitFirst_colon msg hmid
    unfold process_chat_message
    rw [h1]
    simp only [h2, h3, user_extract rest1 hnick]
    by_cases hfound :
      (optimized_detect_bad_words lexTh lexEn segFn (pyStrip msg)).isEmpty
    · rw [if_pos hfound]
      exact ⟨rfl, rfl⟩
    · rw [if_neg hfound]
      exact ⟨rfl, rfl⟩
  · intro nick rest1 mid msg tail lexTh lexEn segFn st hnick hmid hpre hsecond
    have h1 := @splitFirst_append privmsgMarker hsep
      (':' :: (nick ++ '!' :: rest1))
      ((mid ++ ':' :: msg) ++ (privmsgMarker ++ tail)) hpre
    have h2 := @splitFirst_append privmsgMarker hsep
      (mid ++ ':' :: msg) tail hsecond
    have h3 : splitFirst [':'] (mid ++ ':' :: msg) = some (mid, msg) :=
      splitFirst_colon msg hmid
    unfold process_chat_message
    rw [h1]
    simp only [h2, h3, user_extract rest1 hnick]
    by_cases hfound :
      (optimized_detect_bad_words lexTh lexEn segFn (pyStrip msg)).isEmpty
    · rw [if_pos hfound]
      exact ⟨rfl, rfl⟩
    · rw [if_neg hfound]
      exact ⟨rfl, rfl⟩
  · intro pre post lexTh lexEn segFn st hpre hpost hcolon
    have h1 := @splitFirst_append privmsgMarker hsep pre post hpre
    have h2 : splitFirst privmsgMarker post = none :=
      splitFirst_of_not_occurs hpost
    have h3 : splitFirst [':'] post = none :=
      splitFirst_of_not_occurs (occursIn_single_of_not_mem hcolon)
    unfold process_chat_message
    rw [h1]
    simp only [h2, h3]
  · intro pre mid2 tail lexTh lexEn segFn st hpre hmid2 hcolon
    have h1 := @splitFirst_append privmsgMarker hsep pre
      (mid2 ++ (privmsgMarker ++ tail)) hpre
    have h2 := @splitFirst_append privmsgMarker hsep mid2 tail hmid2
    have h3 : splitFirst [':'] mid2 = none :=
      splitFirst_of_not_occurs (occursIn_single_of_not_mem hcolon)
    unfold process_chat_message
    rw [h1]
    simp only [h2, h3]

/-- C5 counterexample: three concrete lines refute the original claim.  On
`:nick!nick@host PRIVMSG #chan : hi there  ` the text after the first
`':'` following the marker is ` hi there  `, but the emitted message is the
stripped `hi there`.  On `:u!h PRIVMSG #c :I love PRIVMSG` the text after
the first `':'` following the marker is `I love PRIVMSG`, but the emitted
message is `I love`: `parts[1]` is truncated at the second marker
occurrence.  And `:u!h PRIVMSG #c PRIVMSG :hi` is silently dropped even
though a `':'` follows the marker, because `parts[1]` (` #c `) has no
colon. -/
theorem c5_counterexample :
    ((process_chat_message [] [] none ⟨0, 0, []⟩
        ":nick!nick@host PRIVMSG #chan : hi there  ".toList).2.messageEvents
        = [("nick".toList, "hi there".toList)] ∧
      "hi there".toList ≠ " hi there  ".toList) ∧
      ((process_chat_message [] [] none ⟨0, 0, []⟩
          ":u!h PRIVMSG #c :I love PRIVMSG".toList).2.messageEvents =
          [("u".toList, "I love".toList)] ∧
        "I love".toList ≠ "I love PRIVMSG".toList) ∧
      process_chat_message [] [] none ⟨0, 0, []⟩
          ":u!h PRIVMSG #c PRIVMSG :hi".toList = (⟨0, 0, []⟩, noEffects) := by
  refine ⟨⟨rfl, by decide⟩, ⟨rfl, by decide⟩, rfl⟩

/-- C5 witness: the four parts of the parsing theorem applied at concrete
lines — one marker occurrence with and without a colon, and a repeated
marker with and without a colon in the active segment. -/
theorem c5_witness :
    (process_chat_message [] [] none ⟨0, 0, []⟩
        ((':' :: ("nick".toList ++ '!' :: "nick@host ".toList)) ++
          (privmsgMarker ++
            (" #chan ".toList ++ ':' :: "hello :)".toList)))).2.messageEvents
        = [("nick".toList, pyStrip "hello :)".toList)] ∧
      (process_chat_message [] [] none ⟨0, 0, []⟩
          ((':' :: ("u".toList ++ '!' :: "h ".toList)) ++
            (privmsgMarker ++
              ((" #c ".toList ++ ':' :: "I love ".toList) ++
                (privmsgMarker ++ ([] : List Char)))))).2.messageEvents =
        [("u".toList, pyStrip "I love ".toList)] ∧
      process_chat_message [] [] none ⟨7, 2, []⟩
          (":n!n@h ".toList ++ (privmsgMarker ++ " #chan no colon".toList)) =
        (⟨7, 2, []⟩, noEffects) ∧
      process_chat_message [] [] none ⟨7, 2, []⟩
          (":u!h ".toList ++
            (privmsgMarker ++
              (" #c ".toList ++ (privmsgMarker ++ " :hi".toList)))) =
        (⟨7, 2, []⟩, noEffects) :=
  ⟨(c5_privmsg_parsing.1 "nick".toList "nick@host ".toList " #chan ".toList
      "hello :)".toList [] [] none ⟨0, 0, []⟩ (by decide) (by decide)
      (by decide) (by decide)).1,
    (c5_privmsg_parsing.2.1 "u".toList "h ".toList " #c ".toList
      "I love ".toList [] [] [] none ⟨0, 0, []⟩ (by decide) (by decide)
      (by decide) (by decide)).1,
    c5_privmsg_parsing.2.2.1 ":n!n@h ".toList " #chan no colon".toList [] []
      none ⟨7, 2, []⟩ (by decide) (by decide) (by decide),
    c5_privmsg_parsing.2.2.2 ":u!h ".toList " #c ".toList " :hi".toList [] []
      none ⟨7, 2, []⟩ (by decide) (by decide) (by decide)⟩

/-- C6 (amended): every line starting with `PING` — in particular
`PING :H` for every host `H` — produces exactly one outbound line, the
FIXED reply `PONG :tmi.twitch.tv` (with CRLF framing), regardless of the
host in the PING line, and produces zero chat events and no state
change. -/
theorem c6_ping_fixed_pong (H : List Char) (lexTh lexEn : List (List Char))
    (segFn : Option (List Char → Option (List (List Char))))
    (st : WorkerState) :
    handleLine lexTh lexEn segFn st ("PING :".toList ++ H) =
      (st, ⟨[pongLine], [], [], []⟩) := by
  have hline : "PING :".toList ++ H =
      'P' :: 'I' :: 'N' :: 'G' :: ' ' :: ':' :: H := rfl
  rw [hline]
  unfold handleLine
  rw [if_neg (by simp)]
  rw [if_pos (show pingMarker.isPrefixOf
    ('P' :: 'I' :: 'N' :: 'G' :: ' ' :: ':' :: H) = true from rfl)]

/-- C6 counterexample: processing `PING :example.com` produces the outbound
line `PONG :tmi.twitch.tv` (the reply host is hardcoded), not
`PONG :example.com` as the claim requires. -/
theorem c6_counterexample :
    (handleLine [] [] none ⟨0, 0, []⟩ "PING :example.com".toList).2.outbound
        = ["PONG :tmi.twitch.tv\r\n".toList] ∧
      "PONG :tmi.twitch.tv\r\n".toList ≠ "PONG :example.com\r\n".toList := by
  constructor
  · rfl
  · decide
